import Mathlib

/-!
Shallow embedding of the doc-sync core (`core.py`): content hashing,
markdown chunking, tag inference, and the dedup-aware chunk store, together
with theorems checking the claims of the specification against this embedding.

Python strings are modelled as `List Char` (Python `len` counts code points,
as does `List.length`).  The SQLite tables are modelled as explicit lists of
rows inside a `Store` state; `datetime.now()` is passed in as an explicit
`now` argument; the filesystem is a map from paths to optional file contents.
-/

namespace DocSync

/-- Whitespace as stripped by Python `str.strip()` (ASCII range; the
    documents handled by the chunker are ASCII markdown). -/
def isPySpace (c : Char) : Bool :=
  c == ' ' || c == '\t' || c == '\n' || c == '\r' ||
  c == Char.ofNat 11 || c == Char.ofNat 12

/-- Python `str.strip()`: drop leading and trailing whitespace. -/
def pstrip (l : List Char) : List Char :=
  (((l.dropWhile isPySpace).reverse.dropWhile isPySpace)).reverse

/-- Python `str.split("\n")`: split on newline separators; the empty string
    splits to `[""]`, and a trailing newline yields a trailing `""`. -/
def splitOnNl : List Char → List (List Char)
  | [] => [[]]
  | c :: cs =>
    if c == '\n' then [] :: splitOnNl cs
    else
      match splitOnNl cs with
      | [] => [[c]]
      | h :: t => (c :: h) :: t

/-- Python `sep.join(parts)`. -/
def joinWith (sep : List Char) : List (List Char) → List Char
  | [] => []
  | [x] => x
  | x :: y :: t => x ++ sep ++ joinWith sep (y :: t)

/-- Python `"\n".join(lines)`. -/
def joinNl (parts : List (List Char)) : List Char :=
  joinWith ['\n'] parts

/-- Is `pre` a prefix of `l`?  (Helper for the substring test below.) -/
def leadsWith : List Char → List Char → Bool
  | [], _ => true
  | _ :: _, [] => false
  | a :: as, b :: bs => a == b && leadsWith as bs

/-- Python `needle in hay` for strings: substring containment. -/
def listContains (hay needle : List Char) : Bool :=
  if leadsWith needle hay then true
  else
    match hay with
    | [] => false
    | _ :: t => listContains t needle

/-!  Configuration constants of `core.py`. -/

def DB_PATH : List Char := "/workspace/_docs/.doc-index.db".toList

def DOCS_ROOT : List Char := "/workspace/_docs".toList

/-- `TAG_HINTS` from `core.py`. -/
def TAG_HINTS : List (List Char) :=
  ["infra".toList, "agents".toList, "apps".toList, "shared".toList,
   "pipelines".toList, "ecs".toList, "lambda".toList]

/-!  The chunker (`chunk_document`). -/

/-- One element of the list returned by `chunk_document`:
    the dict `{content, section, source}`.  (`section` is a Lean keyword,
    so the field is called `sectionLabel`.) -/
structure RawChunk where
  content : List Char
  sectionLabel : List Char
  source : List Char
deriving DecidableEq, Repr

/-- The loop state of `chunk_document`: emitted chunks, the accumulating
    line buffer `current_section`, and the heading stack `current_headings`. -/
structure ChunkState where
  chunks : List RawChunk
  current_section : List (List Char)
  current_headings : List (List Char)
deriving DecidableEq, Repr

/-- Python `line.startswith("#")`. -/
def isHeadingLine : List Char → Bool
  | [] => false
  | c :: _ => c == '#'

/-- `level = len(line) - len(line.lstrip("#"))`. -/
def headingLevel (line : List Char) : Nat :=
  line.length - (line.dropWhile (fun c => c == '#')).length

/-- `heading_text = line.lstrip("#").strip()`. -/
def headingText (line : List Char) : List Char :=
  pstrip (line.dropWhile (fun c => c == '#'))

/-- The mid-stream breadcrumb:
    `" > ".join(current_headings) if current_headings else "Introduction"`. -/
def emitLabel (headings : List (List Char)) : List Char :=
  if headings = [] then "Introduction".toList else joinWith " > ".toList headings

/-- The final-flush breadcrumb:
    `" > ".join(current_headings) if current_headings else "Content"`. -/
def finalLabel (headings : List (List Char)) : List Char :=
  if headings = [] then "Content".toList else joinWith " > ".toList headings

/-- Emit the buffered section if its stripped join is non-empty and longer
    than 50 characters (`if section_content and len(section_content) > 50`). -/
def flushInto (source : List Char) (chunks : List RawChunk)
    (buf : List (List Char)) (label : List Char) : List RawChunk :=
  let sc := pstrip (joinNl buf)
  if sc ≠ [] ∧ 50 < sc.length then
    chunks ++ [⟨sc, label, source⟩]
  else chunks

/-- One iteration of the `for line in lines` loop of `chunk_document`. -/
def chunkStep (source : List Char) (st : ChunkState) (line : List Char) :
    ChunkState :=
  if isHeadingLine line then
    let st1 :=
      if st.current_section = [] then st
      else
        { st with
          chunks := flushInto source st.chunks st.current_section
                      (emitLabel st.current_headings),
          current_section := [] }
    { st1 with
      current_headings :=
        st1.current_headings.take (headingLevel line - 1) ++ [headingText line],
      current_section := st1.current_section ++ [line] }
  else
    { st with current_section := st.current_section ++ [line] }

/-- `chunk_document(content, source)` from `core.py`. -/
def chunk_document (content source : List Char) : List RawChunk :=
  let lines := splitOnNl content
  let st := lines.foldl (chunkStep source) ⟨[], [], []⟩
  if st.current_section = [] then st.chunks
  else flushInto source st.chunks st.current_section
         (finalLabel st.current_headings)

/-!  The hasher (`hash_content`): SHA-256 over the UTF-8 encoding of the
     content, rendered as a lowercase hex digest, mirroring
     `hashlib.sha256(content.encode()).hexdigest()`.  32-bit words are
     `Nat`s reduced modulo `2 ^ 32`. -/

/-- Truncate to a 32-bit word. -/
def w32 (x : Nat) : Nat := x % 4294967296

/-- Right-rotation of a 32-bit word. -/
def rotr (n x : Nat) : Nat := w32 ((x >>> n) ||| (x <<< (32 - n)))

def bsig0 (x : Nat) : Nat := rotr 2 x ^^^ rotr 13 x ^^^ rotr 22 x

def bsig1 (x : Nat) : Nat := rotr 6 x ^^^ rotr 11 x ^^^ rotr 25 x

def ssig0 (x : Nat) : Nat := rotr 7 x ^^^ rotr 18 x ^^^ (x >>> 3)

def ssig1 (x : Nat) : Nat := rotr 17 x ^^^ rotr 19 x ^^^ (x >>> 10)

def chF (x y z : Nat) : Nat := (x &&& y) ^^^ ((4294967295 ^^^ x) &&& z)

def majF (x y z : Nat) : Nat := (x &&& y) ^^^ (x &&& z) ^^^ (y &&& z)

/-- The 64 SHA-256 round constants. -/
def K256 : List Nat :=
  [1116352408, 1899447441, 3049323471, 3921009573, 961987163,
   1508970993, 2453635748, 2870763221, 3624381080, 310598401,
   607225278, 1426881987, 1925078388, 2162078206, 2614888103,
   3248222580, 3835390401, 4022224774, 264347078, 604807628,
   770255983, 1249150122, 1555081692, 1996064986, 2554220882,
   2821834349, 2952996808, 3210313671, 3336571891, 3584528711,
   113926993, 338241895, 666307205, 773529912, 1294757372,
   1396182291, 1695183700, 1986661051, 2177026350, 2456956037,
   2730485921, 2820302411, 3259730800, 3345764771, 3516065817,
   3600352804, 4094571909, 275423344, 430227734, 506948616,
   659060556, 883997877, 958139571, 1322822218, 1537002063,
   1747873779, 1955562222, 2024104815, 2227730452, 2361852424,
   2428436474, 2756734187, 3204031479, 3329325298]

/-- The SHA-256 initial hash value. -/
def H256 : List Nat :=
  [1779033703, 3144134277, 1013904242, 2773480762,
   1359893119, 2600822924, 528734635, 1541459225]

/-- UTF-8 encoding of one character (Python `str.encode()`). -/
def utf8EncodeChar (c : Char) : List Nat :=
  let n := c.toNat
  if n < 128 then [n]
  else if n < 2048 then
    [192 ||| (n >>> 6), 128 ||| (n &&& 63)]
  else if n < 65536 then
    [224 ||| (n >>> 12), 128 ||| ((n >>> 6) &&& 63), 128 ||| (n &&& 63)]
  else
    [240 ||| (n >>> 18), 128 ||| ((n >>> 12) &&& 63),
     128 ||| ((n >>> 6) &&& 63), 128 ||| (n &&& 63)]

/-- `k` big-endian bytes of `x`. -/
def beBytes : Nat → Nat → List Nat
  | 0, _ => []
  | k + 1, x => beBytes k (x / 256) ++ [x % 256]

/-- SHA-256 padding: `0x80`, zeros to 56 mod 64, then the 64-bit bit length. -/
def shaPad (msg : List Nat) : List Nat :=
  let l := msg.length
  let zeros := (119 - l % 64) % 64
  msg ++ [128] ++ List.replicate zeros 0 ++ beBytes 8 (l * 8)

/-- Pack big-endian bytes into 32-bit words. -/
def toWords : List Nat → List Nat
  | b0 :: b1 :: b2 :: b3 :: rest =>
    (b0 * 16777216 + b1 * 65536 + b2 * 256 + b3) :: toWords rest
  | _ => []

/-- Split a word list into 16-word blocks (`fuel` bounds the recursion). -/
def toBlocks : Nat → List Nat → List (List Nat)
  | 0, _ => []
  | _, [] => []
  | fuel + 1, l => l.take 16 :: toBlocks fuel (l.drop 16)

/-- Extend a 16-word block to the 64-entry message schedule, one word per
    fuel step. -/
def extendW (w : List Nat) : Nat → List Nat
  | 0 => w
  | k + 1 =>
    let n := w.length
    extendW
      (w ++ [w32 (ssig1 (w.getD (n - 2) 0) + w.getD (n - 7) 0 +
                  ssig0 (w.getD (n - 15) 0) + w.getD (n - 16) 0)]) k

/-- One SHA-256 compression round; the state is `[a, b, c, d, e, f, g, h]`
    and `wk` is the pair of schedule word and round constant. -/
def compressStep (st : List Nat) (wk : Nat × Nat) : List Nat :=
  match st with
  | [a, b, c, d, e, f, g, h] =>
    let t1 := w32 (h + bsig1 e + chF e f g + wk.2 + wk.1)
    let t2 := w32 (bsig0 a + majF a b c)
    [w32 (t1 + t2), a, b, c, w32 (d + t1), e, f, g]
  | other => other

/-- Process one 16-word block against the running hash value. -/
def processBlock (h : List Nat) (block : List Nat) : List Nat :=
  let w := extendW block 48
  let st := (w.zip K256).foldl compressStep h
  h.zipWith (fun x y => w32 (x + y)) st

/-- Lowercase hex character for a nibble. -/
def hexChar (n : Nat) : Char :=
  if n < 10 then Char.ofNat (48 + n) else Char.ofNat (87 + n)

/-- Eight lowercase hex characters of a 32-bit word. -/
def hexWord (x : Nat) : List Char :=
  (beBytes 4 x).flatMap (fun b => [hexChar (b / 16), hexChar (b % 16)])

/-- SHA-256 hex digest of a byte sequence. -/
def sha256Hex (msg : List Nat) : List Char :=
  let words := toWords (shaPad msg)
  let blocks := toBlocks words.length words
  (blocks.foldl processBlock H256).flatMap hexWord

/-- `hash_content(content)` from `core.py`:
    `hashlib.sha256(content.encode()).hexdigest()`. -/
def hash_content (content : List Char) : List Char :=
  sha256Hex (content.flatMap utf8EncodeChar)

/-!  The tagger (`infer_tags`). -/

/-- `infer_tags(path)` from `core.py`: hints found in the lower-cased path,
    in vocabulary order; `["general"]` when none match. -/
def infer_tags (path : List Char) : List (List Char) :=
  let path_lower := path.map Char.toLower
  let tags := TAG_HINTS.filter (fun hint => listContains path_lower hint)
  if tags = [] then ["general".toList] else tags

/-!  The store.  `chunk_meta` and `chunks_fts` are the two SQLite tables;
     the `id`/`rowid` of a row is the SQLite integer primary key, modelled by a
     `next_id` counter on the store state (SQLite assigns monotonically
     increasing rowids; `cursor.lastrowid` is the id of the row just
     inserted). -/

/-- One row of `chunk_meta`. -/
structure MetaRow where
  id : Nat
  source : List Char
  sectionLabel : List Char
  tags : List Char
  chunk_type : List Char
  created_at : List Char
  content_hash : List Char
deriving DecidableEq, Repr

/-- One row of `chunks_fts` (keyed by `rowid`). -/
structure FtsRow where
  rowid : Nat
  content : List Char
  source : List Char
  sectionLabel : List Char
  tags : List Char
deriving DecidableEq, Repr

/-- The database state: both tables plus the rowid counter. -/
structure Store where
  chunk_meta : List MetaRow
  chunks_fts : List FtsRow
  next_id : Nat
deriving DecidableEq, Repr

/-- `insert_chunk(conn, content, source, section, tags_csv, tags_str,
    chunk_type)` from `core.py`.  `datetime.now().isoformat()` is the
    explicit `now` argument.  Returns the Python boolean result paired with
    the store state after the call (the two `INSERT`s commit together, so
    the state is only observed with both rows present or neither). -/
def insert_chunk (st : Store) (now : List Char) (content source sectionLabel
    tags_csv tags_str chunk_type : List Char) : Bool × Store :=
  let content_hash := hash_content content
  if st.chunk_meta.any (fun r => decide (r.content_hash = content_hash)) then
    (false, st)
  else
    (true,
     { chunk_meta := st.chunk_meta ++
         [⟨st.next_id, source, sectionLabel, tags_csv, chunk_type, now,
           content_hash⟩],
       chunks_fts := st.chunks_fts ++
         [⟨st.next_id, content, source, sectionLabel, tags_str⟩],
       next_id := st.next_id + 1 })

/-!  The ingestor (`ingest_document`). -/

/-- the `pathlib` join `root / path` for the path strings this system passes in:
    an absolute `path` replaces `root`, a relative one is joined with a
    separator. -/
def pathJoin (root p : List Char) : List Char :=
  match p with
  | '/' :: _ => p
  | _ => root ++ ['/'] ++ p

/-- The body of the `for chunk in chunks` loop of `ingest_document`:
    dedup-insert one chunk and bump the inserted counter on success. -/
def insertLoopStep (now tags_csv tags_str : List Char)
    (acc : Nat × Store) (ch : RawChunk) : Nat × Store :=
  let r := insert_chunk acc.2 now ch.content ch.source ch.sectionLabel
             tags_csv tags_str "doc".toList
  (acc.1 + (if r.1 then 1 else 0), r.2)

/-- The `if not tags: tags = infer_tags(path)` fallback of
    `ingest_document` (Python `not` treats both `None` and `[]` as
    falsy). -/
def effectiveTags (tags : Option (List (List Char))) (path : List Char) :
    List (List Char) :=
  match tags with
  | none => infer_tags path
  | some [] => infer_tags path
  | some ts => ts

/-- `ingest_document(conn, path, docs_root, tags)` from `core.py`.  The
    filesystem is `fs`, mapping a full path to the text of the file when it
    exists (`full_path.exists()` plus `read_text()`).  Returns the
    inserted count paired with the store state after the call. -/
def ingest_document (fs : List Char → Option (List Char)) (st : Store)
    (now : List Char) (path : List Char) (docs_root : Option (List Char))
    (tags : Option (List (List Char))) : Nat × Store :=
  let root := docs_root.getD DOCS_ROOT
  let full_path := pathJoin root path
  match fs full_path with
  | none => (0, st)
  | some content =>
    let chunks := chunk_document content path
    if chunks = [] then (0, st)
    else
      let tagsEff := effectiveTags tags path
      let tags_str := joinWith [' '] tagsEff
      let tags_csv := joinWith [','] tagsEff
      chunks.foldl (insertLoopStep now tags_csv tags_str) (0, st)

/-!  Database access (`get_connection`). -/

/-- A live connection handle: the path it was opened on and the database
    state behind it. -/
structure Connection where
  dbPath : List Char
  db : Store
deriving DecidableEq, Repr

/-- An apostrophe (kept out of string literals). -/
def SQ : Char := Char.ofNat 39

/-- The actionable guidance carried by the `get_connection` failure:
    `Run ‹sq›doctool index init‹sq› first.` where `‹sq›` is the
    apostrophe. -/
def connGuidance : List Char :=
  "Run ".toList ++ [SQ] ++ "doctool index init".toList ++ [SQ] ++
  " first.".toList

/-- The message of the `RuntimeError` raised by `get_connection`:
    `Database not found: \x7bdb\x7d.` followed by the guidance. -/
def dbNotFoundMsg (db : List Char) : List Char :=
  "Database not found: ".toList ++ db ++ ". ".toList ++ connGuidance

/-- `get_connection(db_path)` from `core.py`: error when the backing file
    does not exist, otherwise a connection on it.  `dbfs` maps a database
    path to the database state when that file exists. -/
def get_connection (dbfs : List Char → Option Store)
    (db_path : Option (List Char)) : Except (List Char) Connection :=
  let db := db_path.getD DB_PATH
  match dbfs db with
  | none => Except.error (dbNotFoundMsg db)
  | some s => Except.ok ⟨db, s⟩

/-!  Lemmas about the string model. -/

theorem dropWhile_head_false (p : Char → Bool) (l : List Char) :
    ∀ (a : Char) (t : List Char), l.dropWhile p = a :: t → p a = false := by
  induction l with
  | nil => intro a t h; simp at h
  | cons c cs ih =>
    intro a t h
    by_cases hp : p c = true
    · rw [List.dropWhile_cons, if_pos hp] at h
      exact ih a t h
    · rw [List.dropWhile_cons, if_neg hp] at h
      cases h
      simpa using hp

theorem dropWhile_dropWhile (p : Char → Bool) (l : List Char) :
    (l.dropWhile p).dropWhile p = l.dropWhile p := by
  cases h : l.dropWhile p with
  | nil => simp
  | cons a t =>
    have ha : p a = false := dropWhile_head_false p l a t h
    simp [List.dropWhile_cons, ha]

theorem pstrip_prefix_dropWhile (l : List Char) :
    pstrip l <+: l.dropWhile isPySpace := by
  unfold pstrip
  have h1 : ((l.dropWhile isPySpace).reverse.dropWhile isPySpace) <:+
      (l.dropWhile isPySpace).reverse := List.dropWhile_suffix _
  have h2 := List.reverse_prefix.mpr h1
  rwa [List.reverse_reverse] at h2

theorem dropWhile_pstrip (l : List Char) :
    (pstrip l).dropWhile isPySpace = pstrip l := by
  cases h : pstrip l with
  | nil => simp
  | cons b t =>
    have hpre := pstrip_prefix_dropWhile l
    rw [h] at hpre
    obtain ⟨u, hu⟩ := hpre
    have hb : isPySpace b = false :=
      dropWhile_head_false isPySpace l b (t ++ u) hu.symm
    simp [List.dropWhile_cons, hb]

theorem reverse_pstrip_dropWhile (l : List Char) :
    ((pstrip l).reverse).dropWhile isPySpace = (pstrip l).reverse := by
  unfold pstrip
  rw [List.reverse_reverse]
  exact dropWhile_dropWhile _ _

/-- `str.strip()` is idempotent: the contents emitted by the chunker are fixed
    points of stripping. -/
theorem pstrip_idem (l : List Char) : pstrip (pstrip l) = pstrip l := by
  conv_lhs => rw [pstrip, dropWhile_pstrip, reverse_pstrip_dropWhile,
    List.reverse_reverse]

theorem splitOnNl_ne_nil (l : List Char) : splitOnNl l ≠ [] := by
  induction l with
  | nil => simp [splitOnNl]
  | cons c cs ih =>
    simp only [splitOnNl]
    split
    · simp
    · cases h : splitOnNl cs with
      | nil => exact absurd h ih
      | cons a t => simp [h]

/-- `"\n".join(content.split("\n")) == content`: splitting then joining is
    the identity, so the final flush of a heading-free document strips the
    whole document text. -/
theorem joinNl_splitOnNl (l : List Char) : joinNl (splitOnNl l) = l := by
  induction l with
  | nil => simp [splitOnNl, joinNl, joinWith]
  | cons c cs ih =>
    simp only [splitOnNl]
    split
    · rename_i hc
      cases h : splitOnNl cs with
      | nil => exact absurd h (splitOnNl_ne_nil cs)
      | cons a t =>
        rw [h] at ih
        simp only [joinNl, joinWith] at ih ⊢
        simp at hc
        simp [hc, ih]
    · cases h : splitOnNl cs with
      | nil => exact absurd h (splitOnNl_ne_nil cs)
      | cons a t =>
        rw [h] at ih
        cases t with
        | nil => simp only [joinNl, joinWith] at ih ⊢; simp [ih]
        | cons y t' =>
          simp only [joinNl, joinWith] at ih ⊢
          simp [ih]

/-!  Lemmas about the chunker. -/

/-- `flushInto` either keeps the chunk list or appends the one emitted
    candidate. -/
theorem flushInto_eq (src : List Char) (chunks : List RawChunk)
    (buf : List (List Char)) (label : List Char) :
    flushInto src chunks buf label =
      chunks ++
        (if pstrip (joinNl buf) ≠ [] ∧ 50 < (pstrip (joinNl buf)).length then
          [⟨pstrip (joinNl buf), label, src⟩]
        else []) := by
  by_cases hg : pstrip (joinNl buf) ≠ [] ∧ 50 < (pstrip (joinNl buf)).length
  · simp only [flushInto, if_pos hg, if_pos hg]
  · simp only [flushInto, if_neg hg, if_neg hg, List.append_nil]

/-- The loop body on a heading line with a non-empty buffer: flush, reset
    the buffer to the heading line alone, and replace-at-depth on the
    heading stack. -/
theorem chunkStep_heading (src : List Char) (st : ChunkState)
    (line : List Char) (h : isHeadingLine line = true)
    (h2 : st.current_section ≠ []) :
    chunkStep src st line =
      ⟨flushInto src st.chunks st.current_section (emitLabel st.current_headings),
       [line],
       st.current_headings.take (headingLevel line - 1) ++ [headingText line]⟩ := by
  simp [chunkStep, h, h2]

/-- The loop body on a heading line with an empty buffer: no flush. -/
theorem chunkStep_heading_nobuf (src : List Char) (st : ChunkState)
    (line : List Char) (h : isHeadingLine line = true)
    (h2 : st.current_section = []) :
    chunkStep src st line =
      ⟨st.chunks, [line],
       st.current_headings.take (headingLevel line - 1) ++ [headingText line]⟩ := by
  simp [chunkStep, h, h2]

/-- The loop body on a non-heading line only appends the line to the
    buffer. -/
theorem chunkStep_nonheading (src : List Char) (st : ChunkState)
    (line : List Char) (h : isHeadingLine line = false) :
    chunkStep src st line =
      ⟨st.chunks, st.current_section ++ [line], st.current_headings⟩ := by
  simp [chunkStep, h]

/-- Each loop iteration only ever appends to the emitted chunk list. -/
theorem chunkStep_chunks_prefix (src : List Char) (st : ChunkState)
    (line : List Char) :
    ∃ tl, (chunkStep src st line).chunks = st.chunks ++ tl := by
  by_cases h : isHeadingLine line = true
  · by_cases h2 : st.current_section = []
    · exact ⟨[], by rw [chunkStep_heading_nobuf src st line h h2]; simp⟩
    · refine ⟨(if pstrip (joinNl st.current_section) ≠ [] ∧
          50 < (pstrip (joinNl st.current_section)).length then
            [⟨pstrip (joinNl st.current_section),
              emitLabel st.current_headings, src⟩]
          else []), ?_⟩
      rw [chunkStep_heading src st line h h2]
      exact flushInto_eq src st.chunks st.current_section _
  · exact ⟨[], by rw [chunkStep_nonheading src st line (by simpa using h)]; simp⟩

/-- The whole loop only ever appends to the emitted chunk list. -/
theorem foldChunks_chunks_prefix (src : List Char) (lines : List (List Char)) :
    ∀ st : ChunkState,
      ∃ tl, (lines.foldl (chunkStep src) st).chunks = st.chunks ++ tl := by
  induction lines with
  | nil => intro st; exact ⟨[], by simp⟩
  | cons l ls ih =>
    intro st
    obtain ⟨t1, h1⟩ := chunkStep_chunks_prefix src st l
    obtain ⟨t2, h2⟩ := ih (chunkStep src st l)
    exact ⟨t1 ++ t2, by rw [List.foldl_cons, h2, h1, List.append_assoc]⟩

/-- Processing a run of non-heading lines just accumulates them in the
    buffer. -/
theorem foldChunks_no_heading (src : List Char) (lines : List (List Char)) :
    ∀ st : ChunkState, (∀ l ∈ lines, isHeadingLine l = false) →
      lines.foldl (chunkStep src) st =
        ⟨st.chunks, st.current_section ++ lines, st.current_headings⟩ := by
  induction lines with
  | nil => intro st _; cases st; simp
  | cons l ls ih =>
    intro st h
    rw [List.foldl_cons,
      chunkStep_nonheading src st l (h l (by simp)),
      ih _ (fun x hx => h x (by simp [hx]))]
    simp

/-- The emission invariant: a chunk the chunker puts out is already-stripped
    text of more than 50 characters. -/
def goodChunk (c : RawChunk) : Prop :=
  pstrip c.content = c.content ∧ 50 < c.content.length

theorem flushInto_good (src : List Char) (chunks : List RawChunk)
    (buf : List (List Char)) (label : List Char) :
    ∀ c ∈ flushInto src chunks buf label, c ∈ chunks ∨ goodChunk c := by
  intro c hc
  rw [flushInto_eq] at hc
  rcases List.mem_append.mp hc with h | h
  · exact Or.inl h
  · right
    split at h
    · rename_i hg
      simp at h
      subst h
      exact ⟨pstrip_idem _, hg.2⟩
    · simp at h

theorem chunkStep_good (src : List Char) (st : ChunkState) (line : List Char) :
    ∀ c ∈ (chunkStep src st line).chunks, c ∈ st.chunks ∨ goodChunk c := by
  intro c hc
  by_cases h : isHeadingLine line = true
  · by_cases h2 : st.current_section = []
    · rw [chunkStep_heading_nobuf src st line h h2] at hc
      exact Or.inl hc
    · rw [chunkStep_heading src st line h h2] at hc
      exact flushInto_good src st.chunks st.current_section _ c hc
  · rw [chunkStep_nonheading src st line (by simpa using h)] at hc
    exact Or.inl hc

theorem foldChunks_good (src : List Char) (lines : List (List Char)) :
    ∀ st : ChunkState, (∀ c ∈ st.chunks, goodChunk c) →
      ∀ c ∈ (lines.foldl (chunkStep src) st).chunks, goodChunk c := by
  induction lines with
  | nil => intro st h; exact h
  | cons l ls ih =>
    intro st h
    refine ih (chunkStep src st l) ?_
    intro c hc
    rcases chunkStep_good src st l c hc with h' | h'
    · exact h c h'
    · exact h'

/-- Every chunk that `chunk_document` returns satisfies the emission
    invariant. -/
theorem chunk_document_good (doc src : List Char) :
    ∀ c ∈ chunk_document doc src, goodChunk c := by
  intro c hc
  set st := (splitOnNl doc).foldl (chunkStep src) ⟨[], [], []⟩ with hst
  have hstgood : ∀ c ∈ st.chunks, goodChunk c :=
    foldChunks_good src (splitOnNl doc) ⟨[], [], []⟩ (by simp)
  have hc' : c ∈ (if st.current_section = [] then st.chunks
      else flushInto src st.chunks st.current_section
             (finalLabel st.current_headings)) := hc
  split at hc'
  · exact hstgood c hc'
  · rcases flushInto_good src st.chunks st.current_section _ c hc' with h | h
    · exact hstgood c h
    · exact h

/-!  Lemmas about the store and the ingestor. -/

/-- A content hash is present in `chunk_meta`. -/
def hashIn (st : Store) (h : List Char) : Prop :=
  ∃ r ∈ st.chunk_meta, r.content_hash = h

/-- The dedup lookup of `insert_chunk` in terms of `hashIn`. -/
theorem insert_chunk_lookup (st : Store) (h : List Char) :
    (st.chunk_meta.any (fun r => decide (r.content_hash = h)) = true) ↔
      hashIn st h := by
  rw [List.any_eq_true]
  unfold hashIn
  constructor
  · rintro ⟨r, hr, hd⟩; exact ⟨r, hr, of_decide_eq_true hd⟩
  · rintro ⟨r, hr, hd⟩; exact ⟨r, hr, decide_eq_true hd⟩

/-- A duplicate insert returns `False` and leaves the store untouched. -/
theorem insert_chunk_dup (st : Store) (now content source sec tcsv tstr
    cty : List Char) (h : hashIn st (hash_content content)) :
    insert_chunk st now content source sec tcsv tstr cty = (false, st) := by
  unfold insert_chunk
  rw [if_pos ((insert_chunk_lookup st (hash_content content)).mpr h)]

/-- A fresh insert returns `True` and appends exactly one row to each
    table, keyed by the same identity. -/
theorem insert_chunk_new (st : Store) (now content source sec tcsv tstr
    cty : List Char) (h : ¬ hashIn st (hash_content content)) :
    insert_chunk st now content source sec tcsv tstr cty =
      (true,
       ⟨st.chunk_meta ++
          [⟨st.next_id, source, sec, tcsv, cty, now, hash_content content⟩],
        st.chunks_fts ++ [⟨st.next_id, content, source, sec, tstr⟩],
        st.next_id + 1⟩) := by
  unfold insert_chunk
  rw [if_neg (fun hc => h ((insert_chunk_lookup st (hash_content content)).mp hc))]

/-- Inserting never removes a hash from the store. -/
theorem insert_chunk_preserves (st : Store) (now content source sec tcsv tstr
    cty h : List Char) (hh : hashIn st h) :
    hashIn (insert_chunk st now content source sec tcsv tstr cty).2 h := by
  by_cases hd : hashIn st (hash_content content)
  · rw [insert_chunk_dup st now content source sec tcsv tstr cty hd]
    exact hh
  · rw [insert_chunk_new st now content source sec tcsv tstr cty hd]
    obtain ⟨r, hr, he⟩ := hh
    exact ⟨r, List.mem_append_left _ hr, he⟩

/-- After inserting a chunk, its content hash is in the store. -/
theorem insert_chunk_adds (st : Store) (now content source sec tcsv tstr
    cty : List Char) :
    hashIn (insert_chunk st now content source sec tcsv tstr cty).2
      (hash_content content) := by
  by_cases hd : hashIn st (hash_content content)
  · rw [insert_chunk_dup st now content source sec tcsv tstr cty hd]
    exact hd
  · rw [insert_chunk_new st now content source sec tcsv tstr cty hd]
    exact ⟨⟨st.next_id, source, sec, tcsv, cty, now, hash_content content⟩,
      List.mem_append_right _ (by simp), rfl⟩

/-- The insert loop never removes a hash from the store. -/
theorem insertLoop_preserves (now tcsv tstr : List Char)
    (chunks : List RawChunk) :
    ∀ (acc : Nat × Store) (h : List Char), hashIn acc.2 h →
      hashIn (chunks.foldl (insertLoopStep now tcsv tstr) acc).2 h := by
  induction chunks with
  | nil => intro acc h hh; exact hh
  | cons c cs ih =>
    intro acc h hh
    rw [List.foldl_cons]
    exact ih _ h (insert_chunk_preserves _ _ _ _ _ _ _ _ _ hh)

/-- After the insert loop, the hash of every processed chunk is in the
    store. -/
theorem insertLoop_covers (now tcsv tstr : List Char)
    (chunks : List RawChunk) :
    ∀ (acc : Nat × Store) (c : RawChunk), c ∈ chunks →
      hashIn (chunks.foldl (insertLoopStep now tcsv tstr) acc).2
        (hash_content c.content) := by
  induction chunks with
  | nil => intro acc c hc; simp at hc
  | cons c0 cs ih =>
    intro acc c hc
    rw [List.foldl_cons]
    rcases List.mem_cons.mp hc with h | h
    · subst h
      exact insertLoop_preserves now tcsv tstr cs _ _
        (insert_chunk_adds _ _ _ _ _ _ _ _)
    · exact ih _ c h

/-- When every chunk is already hashed in the store, the insert loop is the
    identity: nothing inserted, store unchanged. -/
theorem insertLoop_all_dup (now tcsv tstr : List Char)
    (chunks : List RawChunk) :
    ∀ acc : Nat × Store,
      (∀ c ∈ chunks, hashIn acc.2 (hash_content c.content)) →
      chunks.foldl (insertLoopStep now tcsv tstr) acc = acc := by
  induction chunks with
  | nil => intro acc _; rfl
  | cons c0 cs ih =>
    intro acc h
    rw [List.foldl_cons]
    have hstep : insertLoopStep now tcsv tstr acc c0 = acc := by
      unfold insertLoopStep
      rw [insert_chunk_dup acc.2 now c0.content c0.source c0.sectionLabel
        tcsv tstr ("doc".toList) (h c0 (by simp))]
      simp
    rw [hstep]
    exact ih acc (fun c hc => h c (by simp [hc]))

/-- `ingest_document` on a path whose resolution is missing from the
    filesystem. -/
theorem ingest_document_none (fs : List Char → Option (List Char))
    (st : Store) (now path : List Char) (docs_root : Option (List Char))
    (tags : Option (List (List Char)))
    (h : fs (pathJoin (docs_root.getD DOCS_ROOT) path) = none) :
    ingest_document fs st now path docs_root tags = (0, st) := by
  unfold ingest_document
  simp only [h]

/-- `ingest_document` on an existing file: chunk and run the insert loop
    (or return 0 on an empty chunk list). -/
theorem ingest_document_some (fs : List Char → Option (List Char))
    (st : Store) (now path : List Char) (docs_root : Option (List Char))
    (tags : Option (List (List Char))) (content : List Char)
    (h : fs (pathJoin (docs_root.getD DOCS_ROOT) path) = some content) :
    ingest_document fs st now path docs_root tags =
      (if chunk_document content path = [] then (0, st)
       else (chunk_document content path).foldl
              (insertLoopStep now (joinWith [','] (effectiveTags tags path))
                (joinWith [' '] (effectiveTags tags path))) (0, st)) := by
  unfold ingest_document
  simp only [h]

/-- On any heading line, the heading stack is truncated to its first
    `level - 1` entries and the heading text appended (regardless of
    whether a flush happened). -/
theorem chunkStep_headings (src : List Char) (st : ChunkState)
    (line : List Char) (h : isHeadingLine line = true) :
    (chunkStep src st line).current_headings =
      st.current_headings.take (headingLevel line - 1) ++ [headingText line] := by
  by_cases h2 : st.current_section = []
  · rw [chunkStep_heading_nobuf src st line h h2]
  · rw [chunkStep_heading src st line h h2]

/-- A document with no heading lines chunks to at most the single
    `Content`-labelled stripped document text. -/
theorem chunk_document_no_heading (doc src : List Char)
    (h : ∀ l ∈ splitOnNl doc, isHeadingLine l = false) :
    chunk_document doc src =
      if pstrip doc ≠ [] ∧ 50 < (pstrip doc).length then
        [⟨pstrip doc, "Content".toList, src⟩]
      else [] := by
  have hfold := foldChunks_no_heading src (splitOnNl doc) ⟨[], [], []⟩ h
  show (if ((splitOnNl doc).foldl (chunkStep src) ⟨[], [], []⟩).current_section = []
        then ((splitOnNl doc).foldl (chunkStep src) ⟨[], [], []⟩).chunks
        else flushInto src ((splitOnNl doc).foldl (chunkStep src) ⟨[], [], []⟩).chunks
               ((splitOnNl doc).foldl (chunkStep src) ⟨[], [], []⟩).current_section
               (finalLabel ((splitOnNl doc).foldl (chunkStep src) ⟨[], [], []⟩).current_headings)) =
      _
  rw [hfold]
  dsimp only
  rw [List.nil_append, if_neg (splitOnNl_ne_nil doc), flushInto_eq,
    joinNl_splitOnNl]
  simp [finalLabel]

theorem leadsWith_refl (l : List Char) : leadsWith l l = true := by
  induction l with
  | nil => rfl
  | cons c cs ih => simp [leadsWith, ih]

/-- A suffix is always found by the substring search. -/
theorem listContains_append_self (x n : List Char) :
    listContains (x ++ n) n = true := by
  induction x with
  | nil => rw [List.nil_append, listContains.eq_def, if_pos (leadsWith_refl n)]
  | cons c cs ih =>
    rw [List.cons_append, listContains.eq_def]
    split
    · rfl
    · exact ih

theorem length_sub_dropWhile (p : Char → Bool) (l : List Char) :
    l.length - (l.dropWhile p).length = (l.takeWhile p).length := by
  have h := congrArg List.length (List.takeWhile_append_dropWhile p l)
  rw [List.length_append] at h
  omega

/-!  Concrete documents used by the example claims and witnesses. -/

def exSrc : List Char := "guide.md".toList

/-- The worked example input of the specification. -/
def exDoc : List Char :=
  ("# Setup\n\nInstall deps and configure the environment before running anything else.\n\n## Prerequisites\n\nYou need a recent toolchain and a functioning network connection to proceed.").toList

/-- First chunk of the worked example: the `Setup` section (the heading
    line is part of the section body). -/
def exChunk1 : RawChunk :=
  ⟨("# Setup\n\nInstall deps and configure the environment before running anything else.").toList,
   "Setup".toList, exSrc⟩

/-- Second chunk of the worked example: the `Setup > Prerequisites`
    section. -/
def exChunk2 : RawChunk :=
  ⟨("## Prerequisites\n\nYou need a recent toolchain and a functioning network connection to proceed.").toList,
   "Setup > Prerequisites".toList, exSrc⟩

/-- A document whose headings come at levels 1, 2, 3, 2. -/
def hdDoc : List Char :=
  ("# H1\n\nThe first chapter body runs long enough to pass the fifty character bar.\n## H2a\n\nThe second level section also carries enough text to be emitted as a chunk.\n### H3\n\nThe third level section likewise has plenty of characters to keep around.\n## H2b\n\nContent after the second level two heading should sit under level one only.").toList

/-- A heading-free document longer than 50 characters. -/
def noHeadDoc : List Char :=
  "This document has no headings at all but it is certainly long enough.".toList

/-- A document whose first content precedes any heading. -/
def introDoc : List Char :=
  ("Prose before any heading that is long enough to form an introduction chunk.\n# First\n\nBody text goes here afterwards.").toList

def introPre : List (List Char) :=
  ["Prose before any heading that is long enough to form an introduction chunk.".toList]

def introHline : List Char := "# First".toList

def introRest : List (List Char) :=
  ["".toList, "Body text goes here afterwards.".toList]

/-!  The claims. -/

set_option maxRecDepth 8192

/-- C2: on each heading line of level N the heading stack is truncated to
    its first N-1 entries and the new heading text appended; on the
    heading-level sequence [1, 2, 3, 2] the breadcrumb after the second
    level-2 heading is `H1 > H2b`, not `H1 > H2a > H3 > H2b`. -/
theorem heading_stack_truncation :
    (∀ (src : List Char) (st : ChunkState) (line : List Char),
        isHeadingLine line = true →
        (chunkStep src st line).current_headings =
          st.current_headings.take (headingLevel line - 1) ++ [headingText line])
    ∧ (chunk_document hdDoc exSrc).map RawChunk.sectionLabel =
        ["H1".toList, "H1 > H2a".toList, "H1 > H2a > H3".toList,
         "H1 > H2b".toList] := by
  constructor
  · exact chunkStep_headings
  · decide

/-- Witness for C2: a level-2 heading over the stack `[H1, H2a, H3]`
    truncates to `[H1]` before appending, yielding `[H1, H2b]`. -/
theorem heading_stack_truncation_witness :
    isHeadingLine ("## H2b".toList) = true ∧
    (chunkStep exSrc ⟨[], ["x".toList], ["H1".toList, "H2a".toList, "H3".toList]⟩
        ("## H2b".toList)).current_headings =
      ["H1".toList, "H2b".toList] := by
  refine ⟨by decide, ?_⟩
  rw [heading_stack_truncation.1 exSrc
    ⟨[], ["x".toList], ["H1".toList, "H2a".toList, "H3".toList]⟩
    ("## H2b".toList) (by decide)]
  decide

/-- C3: every chunk the chunker emits has stripped content that is
    non-empty and longer than 50 characters; shorter candidates are never
    emitted, neither mid-stream nor at the final flush. -/
theorem chunk_min_length (doc src : List Char) (c : RawChunk)
    (hc : c ∈ chunk_document doc src) :
    pstrip c.content = c.content ∧ 50 < c.content.length ∧ c.content ≠ [] := by
  obtain ⟨h1, h2⟩ := chunk_document_good doc src c hc
  refine ⟨h1, h2, ?_⟩
  intro he
  rw [he] at h2
  simp at h2

/-- Witness for C3 at the worked example document. -/
theorem chunk_min_length_witness :
    exChunk1 ∈ chunk_document exDoc exSrc ∧
    (pstrip exChunk1.content = exChunk1.content ∧
     50 < exChunk1.content.length ∧ exChunk1.content ≠ []) :=
  ⟨by decide, chunk_min_length exDoc exSrc exChunk1 (by decide)⟩

/-- C6: the worked example input yields exactly two chunks, `Setup` with
    the first paragraph and `Setup > Prerequisites` with the second. -/
theorem chunk_example_two_chunks :
    chunk_document exDoc exSrc = [exChunk1, exChunk2] ∧
    listContains exChunk1.content
      ("Install deps and configure the environment before running anything else.".toList) = true ∧
    listContains exChunk2.content
      ("You need a recent toolchain and a functioning network connection to proceed.".toList) = true :=
  ⟨by decide, by decide, by decide⟩

/-- C10: a line is a heading iff its very first character is `#`;
    indentation disqualifies a line, no space is required after the `#`s,
    the level is the count of leading `#` characters, and a line of only
    `#`s pushes an empty heading text. -/
theorem heading_detection :
    (∀ line : List Char, isHeadingLine line = true ↔ ∃ t, line = '#' :: t)
    ∧ (∀ (src : List Char) (st : ChunkState),
        chunkStep src st ("  # indented".toList) =
          ⟨st.chunks, st.current_section ++ ["  # indented".toList],
           st.current_headings⟩)
    ∧ (∀ (src : List Char) (st : ChunkState),
        (chunkStep src st ("#word".toList)).current_headings = ["word".toList])
    ∧ (∀ (src : List Char) (st : ChunkState),
        (chunkStep src st ("###".toList)).current_headings =
          st.current_headings.take 2 ++ [[]])
    ∧ (∀ line : List Char,
        headingLevel line = (line.takeWhile (fun c => c == '#')).length) := by
  refine ⟨?_, ?_, ?_, ?_, ?_⟩
  · intro line
    cases line with
    | nil => simp [isHeadingLine]
    | cons c t =>
      simp only [isHeadingLine, beq_iff_eq]
      constructor
      · intro h; exact ⟨t, by rw [h]⟩
      · rintro ⟨t', ht⟩; cases ht; rfl
  · intro src st
    exact chunkStep_nonheading src st _ (by decide)
  · intro src st
    rw [chunkStep_headings src st _ (by decide)]
    have h1 : headingLevel ("#word".toList) = 1 := by decide
    have h2 : headingText ("#word".toList) = "word".toList := by decide
    rw [h1, h2]
    simp
  · intro src st
    rw [chunkStep_headings src st _ (by decide)]
    have h1 : headingLevel ("###".toList) = 3 := by decide
    have h2 : headingText ("###".toList) = [] := by decide
    rw [h1, h2]
  · intro line
    exact length_sub_dropWhile _ line

/-- Witness for C10: `#word` is a heading of level 1 with text `word`;
    an indented heading-like line is ordinary content. -/
theorem heading_detection_witness :
    isHeadingLine ("#word".toList) = true ∧
    (chunkStep ("s".toList) ⟨[], [], ["old".toList]⟩ ("#word".toList)).current_headings =
      ["word".toList] ∧
    (chunkStep ("s".toList) ⟨[], [], ["old".toList]⟩ ("  # indented".toList)).current_headings =
      ["old".toList] := by
  refine ⟨(heading_detection.1 ("#word".toList)).mpr ⟨"word".toList, rfl⟩,
    heading_detection.2.2.1 ("s".toList) ⟨[], [], ["old".toList]⟩, ?_⟩
  rw [heading_detection.2.1 ("s".toList) ⟨[], [], ["old".toList]⟩]

/-- C5: a heading-free document produces at most one chunk, labelled
    `Content`, exactly one when the stripped content exceeds 50 characters;
    a chunk emitted from content preceding any heading is labelled
    `Introduction`; the empty document produces zero chunks. -/
theorem chunker_edge_labels :
    (∀ doc src : List Char, (∀ l ∈ splitOnNl doc, isHeadingLine l = false) →
       ((chunk_document doc src).length ≤ 1 ∧
        (∀ c ∈ chunk_document doc src, c.sectionLabel = "Content".toList) ∧
        (50 < (pstrip doc).length →
          chunk_document doc src = [⟨pstrip doc, "Content".toList, src⟩])))
    ∧ (∀ (doc src : List Char) (pre : List (List Char)) (hline : List Char)
         (rest : List (List Char)),
         splitOnNl doc = pre ++ hline :: rest →
         (∀ l ∈ pre, isHeadingLine l = false) →
         isHeadingLine hline = true →
         50 < (pstrip (joinNl pre)).length →
         (chunk_document doc src).head? =
           some ⟨pstrip (joinNl pre), "Introduction".toList, src⟩)
    ∧ (∀ src : List Char, chunk_document [] src = []) := by
  refine ⟨?_, ?_, ?_⟩
  · intro doc src h
    rw [chunk_document_no_heading doc src h]
    by_cases hg : pstrip doc ≠ [] ∧ 50 < (pstrip doc).length
    · rw [if_pos hg]
      exact ⟨by simp, by simp, fun _ => rfl⟩
    · rw [if_neg hg]
      refine ⟨by simp, by simp, fun hlen => absurd ⟨?_, hlen⟩ hg⟩
      intro he
      rw [he] at hlen
      simp at hlen
  · intro doc src pre hline rest hsplit hpre hhl hlen
    have hpre_ne : pre ≠ [] := by
      intro he
      rw [he] at hlen
      simp [joinNl, joinWith, pstrip] at hlen
    have hsc_ne : pstrip (joinNl pre) ≠ [] := by
      intro he
      rw [he] at hlen
      simp at hlen
    have e1 : pre.foldl (chunkStep src) ⟨[], [], []⟩ =
        ⟨[], pre, []⟩ := by
      rw [foldChunks_no_heading src pre ⟨[], [], []⟩ hpre]
      rfl
    have e2 : (chunkStep src ⟨[], pre, []⟩ hline).chunks =
        [⟨pstrip (joinNl pre), "Introduction".toList, src⟩] := by
      rw [chunkStep_heading src ⟨[], pre, []⟩ hline hhl hpre_ne]
      dsimp only
      rw [flushInto_eq, if_pos ⟨hsc_ne, hlen⟩]
      simp [emitLabel]
    obtain ⟨tl, htl⟩ :=
      foldChunks_chunks_prefix src rest (chunkStep src ⟨[], pre, []⟩ hline)
    have e3 : ((splitOnNl doc).foldl (chunkStep src) ⟨[], [], []⟩).chunks =
        ⟨pstrip (joinNl pre), "Introduction".toList, src⟩ :: tl := by
      rw [hsplit, List.foldl_append, e1, List.foldl_cons, htl, e2]
      rfl
    have efin : chunk_document doc src =
        (if ((splitOnNl doc).foldl (chunkStep src) ⟨[], [], []⟩).current_section = []
         then ((splitOnNl doc).foldl (chunkStep src) ⟨[], [], []⟩).chunks
         else flushInto src
                ((splitOnNl doc).foldl (chunkStep src) ⟨[], [], []⟩).chunks
                ((splitOnNl doc).foldl (chunkStep src) ⟨[], [], []⟩).current_section
                (finalLabel ((splitOnNl doc).foldl (chunkStep src) ⟨[], [], []⟩).current_headings)) :=
      rfl
    rw [efin]
    split
    · rw [e3]
      rfl
    · rw [flushInto_eq, e3]
      rfl
  · intro src
    rfl

/-- Witness for C5: a heading-free document gives one `Content` chunk, and
    prose before the first heading gives a leading `Introduction` chunk. -/
theorem chunker_edge_labels_witness :
    chunk_document noHeadDoc exSrc =
      [⟨pstrip noHeadDoc, "Content".toList, exSrc⟩] ∧
    (chunk_document introDoc exSrc).head? =
      some ⟨pstrip (joinNl introPre), "Introduction".toList, exSrc⟩ :=
  ⟨(chunker_edge_labels.1 noHeadDoc exSrc (by decide)).2.2 (by decide),
   chunker_edge_labels.2.1 introDoc exSrc introPre introHline introRest
     (by decide) (by decide) (by decide) (by decide)⟩

/-- C9: `infer_tags` returns exactly the vocabulary hints occurring as
    substrings of the lower-cased path, in vocabulary order, without
    duplicates; it returns `["general"]` when nothing matches, and is
    never empty. -/
theorem infer_tags_spec (path : List Char) :
    (∀ t, t ∈ TAG_HINTS.filter
        (fun h => listContains (path.map Char.toLower) h) ↔
      (t ∈ TAG_HINTS ∧ listContains (path.map Char.toLower) t = true))
    ∧ infer_tags path ≠ []
    ∧ (infer_tags path).Nodup
    ∧ (TAG_HINTS.filter (fun h => listContains (path.map Char.toLower) h) ≠ [] →
        infer_tags path =
          TAG_HINTS.filter (fun h => listContains (path.map Char.toLower) h) ∧
        (infer_tags path).Sublist TAG_HINTS)
    ∧ (TAG_HINTS.filter (fun h => listContains (path.map Char.toLower) h) = [] →
        infer_tags path = ["general".toList]) := by
  have hnodup : TAG_HINTS.Nodup := by decide
  refine ⟨?_, ?_, ?_, ?_, ?_⟩
  · intro t
    simp [List.mem_filter]
  · simp only [infer_tags]
    split
    · simp
    · assumption
  · simp only [infer_tags]
    split
    · simp
    · exact hnodup.filter _
  · intro h
    simp only [infer_tags]
    rw [if_neg h]
    exact ⟨rfl, List.filter_sublist _⟩
  · intro h
    simp only [infer_tags]
    rw [if_pos h]

/-- Witness for C9: `infra/ecs/notes.md` gets `[infra, ecs]` in vocabulary
    order, and an unmatched path gets `[general]`. -/
theorem infer_tags_spec_witness :
    infer_tags ("infra/ecs/notes.md".toList) =
      ["infra".toList, "ecs".toList] ∧
    infer_tags ("misc/readme.md".toList) = ["general".toList] :=
  ⟨((infer_tags_spec ("infra/ecs/notes.md".toList)).2.2.2.1
      (by decide)).1.trans (by decide),
   (infer_tags_spec ("misc/readme.md".toList)).2.2.2.2 (by decide)⟩

/-- C1: inserting a chunk whose content hash is already in `chunk_meta`
    returns `False` and leaves the store unchanged; otherwise it returns
    `True`, appending exactly one `chunk_meta` row timestamped `now` and
    one `chunks_fts` row keyed by the same fresh identity — in every case
    the two tables grow by the same amount. -/
theorem insert_chunk_dedup (st : Store) (now content source sec tcsv tstr
    cty : List Char) :
    (hashIn st (hash_content content) →
       insert_chunk st now content source sec tcsv tstr cty = (false, st))
    ∧ (¬ hashIn st (hash_content content) →
       insert_chunk st now content source sec tcsv tstr cty =
         (true,
          ⟨st.chunk_meta ++
             [⟨st.next_id, source, sec, tcsv, cty, now, hash_content content⟩],
           st.chunks_fts ++ [⟨st.next_id, content, source, sec, tstr⟩],
           st.next_id + 1⟩))
    ∧ ((insert_chunk st now content source sec tcsv tstr cty).2.chunk_meta.length
         + st.chunks_fts.length =
       (insert_chunk st now content source sec tcsv tstr cty).2.chunks_fts.length
         + st.chunk_meta.length) := by
  refine ⟨insert_chunk_dup st now content source sec tcsv tstr cty,
    insert_chunk_new st now content source sec tcsv tstr cty, ?_⟩
  by_cases hd : hashIn st (hash_content content)
  · rw [insert_chunk_dup st now content source sec tcsv tstr cty hd]
    exact Nat.add_comm _ _
  · rw [insert_chunk_new st now content source sec tcsv tstr cty hd]
    simp only [List.length_append, List.length_cons, List.length_nil]
    omega

def wNow : List Char := "2026-10-12T00:00:00".toList

def wContent : List Char := "some chunk text".toList

def wSec : List Char := "Setup".toList

def wCsv : List Char := "infra,ecs".toList

def wStr : List Char := "infra ecs".toList

def wTy : List Char := "doc".toList

/-- The store after inserting `wContent` into the empty store. -/
def wStore1 : Store :=
  ⟨[⟨1, exSrc, wSec, wCsv, wTy, wNow, hash_content wContent⟩],
   [⟨1, wContent, exSrc, wSec, wStr⟩], 2⟩

/-- Witness for C1: a fresh insert into an empty store succeeds and writes
    both rows under id 1; re-inserting the same content is a no-op
    returning `False`. -/
theorem insert_chunk_dedup_witness :
    insert_chunk ⟨[], [], 1⟩ wNow wContent exSrc wSec wCsv wStr wTy =
      (true, wStore1) ∧
    insert_chunk wStore1 wNow wContent exSrc wSec wCsv wStr wTy =
      (false, wStore1) :=
  ⟨(insert_chunk_dedup ⟨[], [], 1⟩ wNow wContent exSrc wSec wCsv wStr wTy).2.1
     (by rintro ⟨r, hr, _⟩; simp at hr),
   (insert_chunk_dedup wStore1 wNow wContent exSrc wSec wCsv wStr wTy).1
     ⟨⟨1, exSrc, wSec, wCsv, wTy, wNow, hash_content wContent⟩,
      by simp [wStore1], rfl⟩⟩

/-- C4: ingesting the same unchanged document twice in succession against
    the same store inserts nothing on the second run, so the second count
    is 0 and never exceeds the first (the filesystem map is immutable, so
    the document is unchanged between the runs). -/
theorem ingest_twice_idempotent (fs : List Char → Option (List Char))
    (st : Store) (now1 now2 path : List Char)
    (docs_root : Option (List Char)) (tags : Option (List (List Char))) :
    (ingest_document fs (ingest_document fs st now1 path docs_root tags).2
        now2 path docs_root tags).1 = 0
    ∧ (ingest_document fs (ingest_document fs st now1 path docs_root tags).2
        now2 path docs_root tags).1
      ≤ (ingest_document fs st now1 path docs_root tags).1 := by
  have main : (ingest_document fs
      (ingest_document fs st now1 path docs_root tags).2
      now2 path docs_root tags).1 = 0 := by
    cases hfs : fs (pathJoin (docs_root.getD DOCS_ROOT) path) with
    | none =>
      rw [ingest_document_none fs st now1 path docs_root tags hfs]
      rw [ingest_document_none fs (0, st).2 now2 path docs_root tags hfs]
    | some content =>
      rw [ingest_document_some fs st now1 path docs_root tags content hfs]
      by_cases hch : chunk_document content path = []
      · rw [if_pos hch]
        rw [ingest_document_some fs (0, st).2 now2 path docs_root tags content hfs,
          if_pos hch]
      · rw [if_neg hch]
        rw [ingest_document_some fs _ now2 path docs_root tags content hfs,
          if_neg hch]
        rw [insertLoop_all_dup now2
          (joinWith [','] (effectiveTags tags path))
          (joinWith [' '] (effectiveTags tags path))
          (chunk_document content path) _ ?_]
        intro c hc
        exact insertLoop_covers now1
          (joinWith [','] (effectiveTags tags path))
          (joinWith [' '] (effectiveTags tags path))
          (chunk_document content path) (0, st) c hc
  exact ⟨main, by rw [main]; exact Nat.zero_le _⟩

/-- C7: ingesting a path whose resolution does not exist returns 0 and
    leaves the store untouched; likewise when chunking yields zero
    chunks. -/
theorem ingest_missing_or_empty (fs : List Char → Option (List Char))
    (st : Store) (now path : List Char) (docs_root : Option (List Char))
    (tags : Option (List (List Char))) :
    (fs (pathJoin (docs_root.getD DOCS_ROOT) path) = none →
       ingest_document fs st now path docs_root tags = (0, st))
    ∧ (∀ content, fs (pathJoin (docs_root.getD DOCS_ROOT) path) = some content →
       chunk_document content path = [] →
       ingest_document fs st now path docs_root tags = (0, st)) := by
  constructor
  · exact ingest_document_none fs st now path docs_root tags
  · intro content h hch
    rw [ingest_document_some fs st now path docs_root tags content h,
      if_pos hch]

/-- Witness for C7: an empty filesystem makes ingestion a no-op, and a
    too-short file (zero chunks) also inserts nothing. -/
theorem ingest_missing_or_empty_witness :
    ingest_document (fun _ => none) wStore1 wNow ("notes.md".toList)
      none none = (0, wStore1) ∧
    ingest_document (fun _ => some ("too short".toList)) wStore1 wNow
      ("notes.md".toList) none none = (0, wStore1) :=
  ⟨(ingest_missing_or_empty (fun _ => none) wStore1 wNow ("notes.md".toList)
      none none).1 rfl,
   (ingest_missing_or_empty (fun _ => some ("too short".toList)) wStore1 wNow
      ("notes.md".toList) none none).2 ("too short".toList) rfl (by decide)⟩

/-- C8: when the backing database file is missing, `get_connection` fails
    with the `Database not found` error whose message carries the `run
    init first` guidance; when the file exists, a connection handle on it
    is returned. -/
theorem get_connection_spec (dbfs : List Char → Option Store)
    (db_path : Option (List Char)) :
    (dbfs (db_path.getD DB_PATH) = none →
       get_connection dbfs db_path =
         Except.error (dbNotFoundMsg (db_path.getD DB_PATH)) ∧
       listContains (dbNotFoundMsg (db_path.getD DB_PATH)) connGuidance = true)
    ∧ (∀ s, dbfs (db_path.getD DB_PATH) = some s →
       get_connection dbfs db_path =
         Except.ok ⟨db_path.getD DB_PATH, s⟩) := by
  constructor
  · intro h
    refine ⟨?_, ?_⟩
    · unfold get_connection
      simp only [h]
    · have he : dbNotFoundMsg (db_path.getD DB_PATH) =
          ("Database not found: ".toList ++ db_path.getD DB_PATH ++
            ". ".toList) ++ connGuidance := by
        simp [dbNotFoundMsg, List.append_assoc]
      rw [he]
      exact listContains_append_self _ _
  · intro s h
    unfold get_connection
    simp only [h]

/-- Witness for C8: a missing backing file errors with the guidance-bearing
    message; an existing one yields a handle. -/
theorem get_connection_spec_witness :
    get_connection (fun _ => none) none =
      Except.error (dbNotFoundMsg DB_PATH) ∧
    listContains (dbNotFoundMsg DB_PATH) connGuidance = true ∧
    get_connection (fun _ => some wStore1) none =
      Except.ok ⟨DB_PATH, wStore1⟩ :=
  ⟨((get_connection_spec (fun _ => none) none).1 rfl).1,
   ((get_connection_spec (fun _ => none) none).1 rfl).2,
   (get_connection_spec (fun _ => some wStore1) none).2 wStore1 rfl⟩

end DocSync
